import Mathlib

/-!
Verification of the data-preparation and decision-postprocessing core of the
bitcoin-prediction browser app (`src/sketch.js`).

The embedding models, faithfully to the JavaScript source:
* `convertDate` (sketch.js:870-885): split the string on `"-"`, `Number()` each
  of the three parts, build `new Date(y, m - 1, d)`, and return the whole-day
  difference to `new Date(2018, 0, 1)`, or `0` when parsing fails or the date
  arithmetic is not finite.
* the row-ingestion loop of `loadCSVData` (sketch.js:615-633), here called
  `loadExamples` as in the specification;
* the top-confidence scan and the no-result guard of `handleResults`
  (sketch.js:780-824);
* `labelToAdvice` (sketch.js:887-902).

Modelling conventions:
* JavaScript numbers produced by `Number()` on the dash-separated components
  are modelled on the decimal fragment actually exercised by this program:
  the empty string (which `Number` maps to `0`) and nonempty strings of ASCII
  digits.  Exotic numeric syntax (exponents, hex, fractions, signs,
  whitespace) is treated as NaN by the model.
* `new Date(y, mon, d)` follows ECMA-262 `MakeFullYear`/`MakeDay`: a year
  argument in `0..99` is remapped to `1900 + y`, the month argument is
  normalised by carrying `mon / 12` into the year, and out-of-range day
  numbers roll over into adjacent months.  A resulting time value farther
  than 100 000 000 days from the 1970-01-01 epoch is NaN, which the source
  converts to the sentinel `0` via its `Number.isFinite` guard.
* The host time zone is modelled as a fixed-offset zone: both `new Date(y,
  m - 1, d)` and `new Date(2018, 0, 1)` denote local midnights, so their
  difference is an exact whole number of days and `Math.floor` is the
  identity on it.
-/

/-! ## Characters, digit strings and `Number()` on the decimal fragment -/

/-- Numeric value of an ASCII digit character. -/
def digitVal (c : Char) : Nat := c.toNat - 48

/-- Fuel-driven digit expansion; the fuel only bounds the recursion depth
(`n ≤ fuel` on every call), keeping the definition structurally recursive. -/
def toDigitsAux : Nat → Nat → List Char
  | 0, n => [Nat.digitChar n]
  | fuel + 1, n =>
    if n < 10 then [Nat.digitChar n]
    else toDigitsAux fuel (n / 10) ++ [Nat.digitChar (n % 10)]

/-- Decimal digit expansion of a natural number, most significant digit
first, as produced when the tests format a date component. -/
def toDigits (n : Nat) : List Char := toDigitsAux n n

/-- Left-pad the decimal expansion of `n` with zeros to width `k`, as in a
`YYYY-MM-DD` component. -/
def padDigits (k n : Nat) : List Char :=
  List.replicate (k - (toDigits n).length) '0' ++ toDigits n

/-- `String.prototype.split("-")`: cut the character list at every dash,
keeping empty segments, with `[""]` for the empty string. -/
def splitDash : List Char → List (List Char)
  | [] => [[]]
  | c :: rest =>
    if c = '-' then [] :: splitDash rest
    else
      match splitDash rest with
      | [] => [[c]]
      | p :: ps => (c :: p) :: ps

/-- `Number()` restricted to the decimal fragment: the empty string is `0`
(per ECMA-262 StringToNumber) and a nonempty all-digit string is its decimal
value; everything else is treated as NaN (`none`). -/
def jsNum? (l : List Char) : Option Nat :=
  if l = [] then some 0
  else if l.all Char.isDigit then
    some (l.foldl (fun a c => 10 * a + digitVal c) 0)
  else none

/-- `String.prototype.trim()` on the character list. -/
def trimChars (l : List Char) : List Char :=
  ((l.dropWhile Char.isWhitespace).reverse.dropWhile Char.isWhitespace).reverse

/-- `String.prototype.trim()`. -/
def jsTrim (s : String) : String := String.mk (trimChars s.data)

/-! ## Proleptic Gregorian calendar arithmetic (ECMA-262 MakeDay) -/

/-- Gregorian leap-year test. -/
def isLeap (y : Nat) : Bool := (y % 4 == 0 && y % 100 != 0) || y % 400 == 0

/-- Number of leap years in `1..y`. -/
def leapCount (y : Nat) : Nat := y / 4 - y / 100 + y / 400

/-- Days from 0001-01-01 to `y`-01-01 (proleptic Gregorian, `y ≥ 1`). -/
def daysBeforeYear (y : Nat) : Nat := 365 * (y - 1) + leapCount (y - 1)

/-- Length of month `m` (1-based) in a year with leap flag `leap`. -/
def monthLen (leap : Bool) (m : Nat) : Nat :=
  if m = 2 then (if leap then 29 else 28)
  else if m = 4 ∨ m = 6 ∨ m = 9 ∨ m = 11 then 30
  else 31

/-- Days in the year before the first of month `m` (1-based). -/
def daysBeforeMonth (leap : Bool) (m : Nat) : Nat :=
  ((List.range (m - 1)).map (fun i => monthLen leap (i + 1))).sum

/-- Day number (days since 0001-01-01, plus one) of day `d` of month `m`
(both 1-based; `d` may exceed the month length, in which case it denotes a
day in a later month, exactly as ECMA-262 MakeDay adds `date - 1` days to
the first of the month). -/
def civilNat (y m d : Nat) : Nat :=
  daysBeforeYear y + daysBeforeMonth (isLeap y) m + d

/-- ECMA-262 MakeFullYear: a year argument in `0..99` means `1900 + y`. -/
def makeFullYear (y : Nat) : Nat := if y ≤ 99 then 1900 + y else y

/-- ECMA-262 MakeDay for `new Date(y, m - 1, d)` with the raw parsed
components `y`, `m` (1-based month, `m = 0` rolling back to December of the
previous year) and `d`, in days since 0001-01-01. -/
def makeDay (y m d : Nat) : Int :=
  let yr := makeFullYear y
  let ym := if m = 0 then yr - 1 else yr + (m - 1) / 12
  let mn := if m = 0 then 12 else (m - 1) % 12 + 1
  (civilNat ym mn d : Int) - 1

/-- Day number of the reference epoch `new Date(2018, 0, 1)`. -/
def epochDayNumber : Int := makeDay 2018 1 1

/-- Day number of the JavaScript time origin 1970-01-01. -/
def day1970 : Int := makeDay 1970 1 1

/-- Largest magnitude, in days from 1970-01-01, representable by a
JavaScript `Date` (ECMA-262: 8.64e15 milliseconds). -/
def jsDateRangeDays : Nat := 100000000

/-- The numeric core of `convertDate` (sketch.js:880-884): the whole-day
difference between `new Date(y, m - 1, d)` and `new Date(2018, 0, 1)`, with
the source's `Number.isFinite(diffDays) ? diffDays : 0` guard modelling the
NaN produced by an out-of-range `Date`. -/
def convertDateNums (y m d : Nat) : Int :=
  let t := makeDay y m d
  if (t - day1970).natAbs ≤ jsDateRangeDays then t - epochDayNumber else 0

/-- The component stage of `convertDate`: `Number()` each of the three parts
and hand the values to the date arithmetic, or return the sentinel `0` when
any part is not a finite number. -/
def convertParts (p1 p2 p3 : List Char) : Int :=
  match jsNum? p1, jsNum? p2, jsNum? p3 with
  | some y, some m, some d => convertDateNums y m d
  | _, _, _ => 0

/-- `convertDate` (sketch.js:870-885) on the character list: split on dashes,
require exactly three parts, then the component stage. -/
def convertDateChars (l : List Char) : Int :=
  match splitDash l with
  | [p1, p2, p3] => convertParts p1 p2 p3
  | _ => 0

/-- `convertDate` (sketch.js:870-885). -/
def convertDate (s : String) : Int := convertDateChars s.data

/-- Render `(y, m, d)` as a dash-separated date string with the usual
`YYYY-MM-DD` zero padding. -/
def fmtDate (y m d : Nat) : String :=
  String.mk (padDigits 4 y ++ '-' :: (padDigits 2 m ++ '-' :: padDigits 2 d))

/-- Valid proleptic Gregorian calendar date. -/
def validDate (y m d : Nat) : Prop :=
  1 ≤ m ∧ m ≤ 12 ∧ 1 ≤ d ∧ d ≤ monthLen (isLeap y) m

instance (y m d : Nat) : Decidable (validDate y m d) := by
  unfold validDate; infer_instance

/-! ## Dataset loader (the row loop of `loadCSVData`, sketch.js:615-633) -/

/-- A parsed tabular row as delivered by the CSV collaborator. -/
structure SourceRow where
  date : String
  volume : String
  rate : String
  prediction : String
deriving DecidableEq

/-- A labelled training example produced by the loader. -/
structure TrainingExample where
  date : Int
  volume : Nat
  rate : Nat
  label : String
deriving DecidableEq

/-- One iteration of the row loop (sketch.js:617-631): trim `date` and
`prediction`, `Number()` the `volume` and `rate` fields, skip the row unless
the strings are nonempty and both numbers are finite, and otherwise build
the training example with the encoded date. -/
def rowToExample? (r : SourceRow) : Option TrainingExample :=
  let dateStr := jsTrim r.date
  let label := jsTrim r.prediction
  if dateStr = "" ∨ label = "" then none
  else
    match jsNum? r.volume.data, jsNum? r.rate.data with
    | some v, some rt =>
      some { date := convertDate dateStr, volume := v, rate := rt, label := label }
    | _, _ => none

/-- The full row loop of `loadCSVData` (sketch.js:615-633), called
`loadExamples` in the specification: accepted rows are appended in input
order, malformed rows are skipped. -/
def loadExamples : List SourceRow → List TrainingExample
  | [] => []
  | r :: rest =>
    match rowToExample? r with
    | some e => e :: loadExamples rest
    | none => loadExamples rest

/-! ## Inference result selector (`handleResults`, sketch.js:780-824) -/

/-- One scored candidate returned by the classifier; `confidence = none`
models a missing or non-number `confidence` property (the source's
`typeof r?.confidence === "number"` test). -/
structure PredictionCandidate where
  label : String
  confidence : Option ℚ
deriving DecidableEq

/-- One step of the scan at sketch.js:800-804: adopt `r` exactly when its
confidence is a number exceeding `top?.confidence ?? -1`. -/
def selStep (top r : PredictionCandidate) : PredictionCandidate :=
  match r.confidence with
  | some c => if top.confidence.getD (-1) < c then r else top
  | none => top

/-- The selection scan of `handleResults`: `top` starts at `results[0]` and
the loop runs over the whole list.  `none` for the empty list, where the
source has already branched to its "No results" message. -/
def selectTopList (l : List PredictionCandidate) : Option PredictionCandidate :=
  match l with
  | [] => none
  | h :: _ => some (l.foldl selStep h)

/-- Observable outcome of `handleResults`. -/
inductive PredictionOutcome where
  | errorShown
  | noResults
  | chosen (top : PredictionCandidate)
deriving DecidableEq

/-- `handleResults` (sketch.js:780-824) on the non-error path: the argument
is `none` when `results` is not an array, otherwise the candidate list.
A missing or empty list renders the "No results" panel (sketch.js:793-797);
otherwise the scan's winner is displayed. -/
def handleResults (results : Option (List PredictionCandidate)) : PredictionOutcome :=
  match results with
  | none => .noResults
  | some [] => .noResults
  | some (h :: t) => .chosen (List.foldl selStep h (h :: t))

/-! ## Advice mapper (`labelToAdvice`, sketch.js:887-902) -/

/-- The advisory tuple rendered for a predicted label. -/
structure Advice where
  advice : String
  emoji : String
  cssClass : String
deriving DecidableEq

/-- `labelToAdvice` (sketch.js:887-902): a fixed lookup over the five
sentiment labels with a fixed fallback for anything else. -/
def labelToAdvice (label : String) : Advice :=
  if label = "Extreme Fear" then
    { advice := "Buy the dip → STRONG BUY", emoji := "🔥", cssClass := "extreme-fear" }
  else if label = "Fear" then
    { advice := "Good entry point → BUY", emoji := "😰", cssClass := "fear" }
  else if label = "Neutral" then
    { advice := "Market stable → HOLD", emoji := "😐", cssClass := "neutral" }
  else if label = "Greed" then
    { advice := "Consider taking profits", emoji := "😎", cssClass := "greed" }
  else if label = "Extreme Greed" then
    { advice := "Sell high → SELL", emoji := "🤑", cssClass := "extreme-greed" }
  else
    { advice := "Unknown sentiment", emoji := "❓", cssClass := "" }

/-- The five-label output vocabulary of the classifier. -/
def sentimentLabels : List String :=
  ["Extreme Fear", "Fear", "Neutral", "Greed", "Extreme Greed"]

/-! ## Lemmas: digit strings round-trip through `Number()` -/

theorem digitChar_isDigit : ∀ r : Nat, r < 10 → (Nat.digitChar r).isDigit = true := by decide

theorem digitChar_val : ∀ r : Nat, r < 10 → digitVal (Nat.digitChar r) = r := by decide

theorem isDigit_ne_dash (c : Char) (h : c.isDigit = true) : c ≠ '-' := by
  intro heq
  rw [heq] at h
  exact absurd h (by decide)

theorem toDigitsAux_ne_nil (fuel n : Nat) : toDigitsAux fuel n ≠ [] := by
  cases fuel with
  | zero => simp [toDigitsAux]
  | succ fuel =>
    unfold toDigitsAux
    split <;> simp

theorem toDigits_ne_nil (n : Nat) : toDigits n ≠ [] := toDigitsAux_ne_nil n n

theorem toDigitsAux_digits (fuel : Nat) :
    ∀ n, n ≤ fuel → ∀ c ∈ toDigitsAux fuel n, c.isDigit = true := by
  induction fuel with
  | zero =>
    intro n hn c hc
    simp only [toDigitsAux, List.mem_singleton] at hc
    subst hc
    exact digitChar_isDigit n (by omega)
  | succ fuel ih =>
    intro n hn c hc
    unfold toDigitsAux at hc
    split at hc
    · next h =>
      simp only [List.mem_singleton] at hc
      subst hc
      exact digitChar_isDigit n h
    · next h =>
      rcases List.mem_append.mp hc with hc | hc
      · exact ih (n / 10) (by omega) c hc
      · simp only [List.mem_singleton] at hc
        subst hc
        exact digitChar_isDigit (n % 10) (Nat.mod_lt _ (by omega))

theorem toDigits_digits (n : Nat) : ∀ c ∈ toDigits n, c.isDigit = true :=
  toDigitsAux_digits n n (Nat.le_refl n)

theorem foldl_digits_append (a : Nat) (l : List Char) (c : Char) :
    List.foldl (fun a c => 10 * a + digitVal c) a (l ++ [c])
      = 10 * List.foldl (fun a c => 10 * a + digitVal c) a l + digitVal c := by
  rw [List.foldl_append]
  rfl

theorem foldl_toDigitsAux (fuel : Nat) :
    ∀ n, n ≤ fuel →
    List.foldl (fun a c => 10 * a + digitVal c) 0 (toDigitsAux fuel n) = n := by
  induction fuel with
  | zero =>
    intro n hn
    simp only [toDigitsAux, List.foldl_cons, List.foldl_nil]
    rw [digitChar_val n (by omega)]
    omega
  | succ fuel ih =>
    intro n hn
    unfold toDigitsAux
    split
    · next h =>
      simp only [List.foldl_cons, List.foldl_nil]
      rw [digitChar_val n h]
      omega
    · next h =>
      have hdiv : n / 10 < n := Nat.div_lt_self (by omega) (by omega)
      rw [foldl_digits_append, ih (n / 10) (by omega),
        digitChar_val (n % 10) (Nat.mod_lt _ (by omega))]
      omega

theorem foldl_toDigits (n : Nat) :
    List.foldl (fun a c => 10 * a + digitVal c) 0 (toDigits n) = n :=
  foldl_toDigitsAux n n (Nat.le_refl n)

theorem foldl_zeros (k : Nat) (l : List Char) :
    List.foldl (fun a c => 10 * a + digitVal c) 0 (List.replicate k '0' ++ l)
      = List.foldl (fun a c => 10 * a + digitVal c) 0 l := by
  induction k with
  | zero => rfl
  | succ k ih =>
    rw [List.replicate_succ, List.cons_append, List.foldl_cons]
    exact ih

theorem padDigits_digits (k n : Nat) : ∀ c ∈ padDigits k n, c.isDigit = true := by
  intro c hc
  rcases List.mem_append.mp hc with hc | hc
  · rw [List.eq_of_mem_replicate hc]
    decide
  · exact toDigits_digits n c hc

theorem padDigits_ne_nil (k n : Nat) : padDigits k n ≠ [] := by
  unfold padDigits
  intro h
  rcases List.append_eq_nil.mp h with ⟨-, h2⟩
  exact toDigits_ne_nil n h2

theorem padDigits_no_dash (k n : Nat) : ∀ c ∈ padDigits k n, c ≠ '-' :=
  fun c hc => isDigit_ne_dash c (padDigits_digits k n c hc)

theorem jsNum?_padDigits (k n : Nat) : jsNum? (padDigits k n) = some n := by
  unfold jsNum?
  rw [if_neg (padDigits_ne_nil k n), if_pos]
  · unfold padDigits
    rw [foldl_zeros, foldl_toDigits]
  · rw [List.all_eq_true]
    exact padDigits_digits k n

/-! ## Lemmas: `split("-")` -/

theorem splitDash_no_dash (l : List Char) (h : ∀ c ∈ l, c ≠ '-') : splitDash l = [l] := by
  induction l with
  | nil => rfl
  | cons c t ih =>
    unfold splitDash
    rw [if_neg (h c (by simp))]
    rw [ih (fun x hx => h x (by simp [hx]))]

theorem splitDash_append (l rest : List Char) (h : ∀ c ∈ l, c ≠ '-') :
    splitDash (l ++ '-' :: rest) = l :: splitDash rest := by
  induction l with
  | nil => rfl
  | cons c t ih =>
    rw [List.cons_append]
    show (if c = '-' then [] :: splitDash (t ++ '-' :: rest)
        else
          match splitDash (t ++ '-' :: rest) with
          | [] => [[c]]
          | p :: ps => (c :: p) :: ps) = (c :: t) :: splitDash rest
    rw [if_neg (h c (by simp)), ih (fun x hx => h x (by simp [hx]))]

theorem convertDate_fmtDate (y m d : Nat) :
    convertDate (fmtDate y m d) = convertDateNums y m d := by
  unfold convertDate fmtDate
  show convertDateChars (padDigits 4 y ++ '-' :: (padDigits 2 m ++ '-' :: padDigits 2 d)) = _
  unfold convertDateChars
  rw [splitDash_append _ _ (padDigits_no_dash 4 y),
    splitDash_append _ _ (padDigits_no_dash 2 m),
    splitDash_no_dash _ (padDigits_no_dash 2 d)]
  show convertParts (padDigits 4 y) (padDigits 2 m) (padDigits 2 d) = _
  unfold convertParts
  rw [jsNum?_padDigits, jsNum?_padDigits, jsNum?_padDigits]

/-! ## Lemmas: calendar arithmetic -/

theorem monthLen_pos (b : Bool) (m : Nat) : 1 ≤ monthLen b m := by
  unfold monthLen
  split_ifs <;> omega

theorem monthLen_le_31 (b : Bool) (m : Nat) : monthLen b m ≤ 31 := by
  unfold monthLen
  split_ifs <;> omega

theorem daysBeforeMonth_succ (b : Bool) (m : Nat) (hm : 1 ≤ m) :
    daysBeforeMonth b (m + 1) = daysBeforeMonth b m + monthLen b m := by
  unfold daysBeforeMonth
  obtain ⟨k, rfl⟩ : ∃ k, m = k + 1 := ⟨m - 1, by omega⟩
  rw [show k + 1 + 1 - 1 = k + 1 from rfl, show k + 1 - 1 = k from rfl]
  rw [List.range_succ, List.map_append, List.sum_append]
  simp

theorem daysBeforeMonth_mono (b : Bool) : Monotone (daysBeforeMonth b) := by
  apply monotone_nat_of_le_succ
  intro m
  cases Nat.eq_zero_or_pos m with
  | inl h => subst h; exact Nat.le_refl _
  | inr h =>
    rw [daysBeforeMonth_succ b m h]
    omega

theorem daysBeforeMonth_13 (b : Bool) :
    daysBeforeMonth b 13 = if b then 366 else 365 := by
  cases b <;> decide

theorem leapCount_succ (k : Nat) :
    leapCount (k + 1) = leapCount k + (if isLeap (k + 1) then 1 else 0) := by
  unfold leapCount
  split_ifs with h
  · simp only [isLeap, Bool.or_eq_true, Bool.and_eq_true, beq_iff_eq, bne_iff_ne] at h
    omega
  · simp only [isLeap, Bool.or_eq_true, Bool.and_eq_true, beq_iff_eq, bne_iff_ne] at h
    push_neg at h
    omega

theorem daysBeforeYear_succ (y : Nat) (hy : 1 ≤ y) :
    daysBeforeYear (y + 1) = daysBeforeYear y + (if isLeap y then 366 else 365) := by
  unfold daysBeforeYear
  obtain ⟨k, rfl⟩ : ∃ k, y = k + 1 := ⟨y - 1, by omega⟩
  rw [show k + 1 + 1 - 1 = k + 1 from rfl, show k + 1 - 1 = k from rfl]
  rw [leapCount_succ k]
  split_ifs <;> omega

theorem daysBeforeYear_mono : Monotone daysBeforeYear := by
  apply monotone_nat_of_le_succ
  intro y
  cases Nat.eq_zero_or_pos y with
  | inl h => subst h; exact Nat.le_refl _
  | inr h =>
    rw [daysBeforeYear_succ y h]
    split_ifs <;> omega

theorem civilNat_year_cap (y m d : Nat) (hy : 1 ≤ y) (hv : validDate y m d) :
    civilNat y m d ≤ daysBeforeYear (y + 1) := by
  obtain ⟨hm1, hm2, hd1, hd2⟩ := hv
  unfold civilNat
  have h1 : daysBeforeMonth (isLeap y) m + d ≤ daysBeforeMonth (isLeap y) (m + 1) := by
    rw [daysBeforeMonth_succ _ m hm1]
    omega
  have h2 : daysBeforeMonth (isLeap y) (m + 1) ≤ daysBeforeMonth (isLeap y) 13 :=
    daysBeforeMonth_mono _ (by omega)
  have h3 := daysBeforeMonth_13 (isLeap y)
  rw [daysBeforeYear_succ y hy]
  split_ifs at h3 ⊢ <;> omega

theorem civilNat_strictMono (y1 m1 d1 y2 m2 d2 : Nat)
    (hy1 : 1 ≤ y1) (hv1 : validDate y1 m1 d1) (hv2 : validDate y2 m2 d2)
    (hlt : y1 < y2 ∨ (y1 = y2 ∧ (m1 < m2 ∨ (m1 = m2 ∧ d1 < d2)))) :
    civilNat y1 m1 d1 < civilNat y2 m2 d2 := by
  obtain ⟨hm1', hm2', hd1', hd2'⟩ := hv2
  rcases hlt with hy | ⟨rfl, hm | ⟨rfl, hd⟩⟩
  · have h1 : civilNat y1 m1 d1 ≤ daysBeforeYear (y1 + 1) := civilNat_year_cap y1 m1 d1 hy1 hv1
    have h2 : daysBeforeYear (y1 + 1) ≤ daysBeforeYear y2 := daysBeforeYear_mono (by omega)
    have h3 : daysBeforeYear y2 < civilNat y2 m2 d2 := by
      unfold civilNat
      omega
    omega
  · obtain ⟨hm1, hm2, hd1, hd2⟩ := hv1
    unfold civilNat
    have h1 : daysBeforeMonth (isLeap y1) m1 + d1 ≤ daysBeforeMonth (isLeap y1) (m1 + 1) := by
      rw [daysBeforeMonth_succ _ m1 hm1]
      omega
    have h2 : daysBeforeMonth (isLeap y1) (m1 + 1) ≤ daysBeforeMonth (isLeap y1) m2 :=
      daysBeforeMonth_mono _ (by omega)
    omega
  · unfold civilNat
    omega

/-! ## Lemmas: `MakeDay` normalisation and the `Date` range guard -/

theorem makeDay_norm (y m d : Nat) (hy : 100 ≤ y) (hm : 1 ≤ m) :
    makeDay y m d = (civilNat (y + (m - 1) / 12) ((m - 1) % 12 + 1) d : Int) - 1 := by
  unfold makeDay makeFullYear
  have h99 : ¬ (y ≤ 99) := by omega
  have hm0 : ¬ (m = 0) := by omega
  simp [h99, hm0]

theorem makeDay_valid (y m d : Nat) (hy : 100 ≤ y) (hm1 : 1 ≤ m) (hm2 : m ≤ 12) :
    makeDay y m d = (civilNat y m d : Int) - 1 := by
  rw [makeDay_norm y m d hy hm1]
  rw [Nat.div_eq_of_lt (by omega), Nat.mod_eq_of_lt (by omega)]
  rw [show m - 1 + 1 = m from by omega, show y + 0 = y from by omega]

theorem leapCount_le (k : Nat) : leapCount k ≤ k := by
  unfold leapCount
  omega

theorem daysBeforeMonth_le_366 (b : Bool) (m : Nat) (hm : m ≤ 13) :
    daysBeforeMonth b m ≤ 366 := by
  have h1 := daysBeforeMonth_mono b hm
  have h13 := daysBeforeMonth_13 b
  split_ifs at h13 <;> omega

theorem day1970_value : day1970 = 719162 := by decide

theorem dateRange_guard (Y M D : Nat) (hY1 : 100 ≤ Y) (hY2 : Y ≤ 10010)
    (hM1 : 1 ≤ M) (hM2 : M ≤ 12) (hD : D ≤ 99) :
    (((civilNat Y M D : Int) - 1) - day1970).natAbs ≤ jsDateRangeDays := by
  have hby : daysBeforeYear Y ≤ 365 * 10009 + 10009 := by
    unfold daysBeforeYear
    have := leapCount_le (Y - 1)
    omega
  have hdbm : daysBeforeMonth (isLeap Y) M ≤ 366 := daysBeforeMonth_le_366 _ M (by omega)
  have hcivil : civilNat Y M D ≤ 3663800 := by
    unfold civilNat
    omega
  rw [day1970_value]
  unfold jsDateRangeDays
  omega

theorem convertDateNums_norm (y m d : Nat) (hy1 : 100 ≤ y) (hy2 : y ≤ 9999)
    (hm1 : 1 ≤ m) (hm2 : m ≤ 99) (hd : d ≤ 99) :
    convertDateNums y m d = makeDay y m d - epochDayNumber := by
  have hguard : (makeDay y m d - day1970).natAbs ≤ jsDateRangeDays := by
    rw [makeDay_norm y m d hy1 hm1]
    exact dateRange_guard (y + (m - 1) / 12) ((m - 1) % 12 + 1) d
      (by omega) (by omega) (by omega) (by omega) hd
  unfold convertDateNums
  rw [if_pos hguard]

theorem convertDateNums_valid (y m d : Nat) (hy1 : 100 ≤ y) (hy2 : y ≤ 9999)
    (hm1 : 1 ≤ m) (hm2 : m ≤ 12) (hd : d ≤ 99) :
    convertDateNums y m d = (civilNat y m d : Int) - 1 - epochDayNumber := by
  rw [convertDateNums_norm y m d hy1 hy2 hm1 (by omega) hd]
  rw [makeDay_valid y m d hy1 hm1 hm2]

/-! ## Lemmas: the selection scan -/

/-- The confidence a candidate contributes to the comparison at
sketch.js:801, `top?.confidence ?? -1`. -/
def cconf (c : PredictionCandidate) : ℚ := c.confidence.getD (-1)

theorem selStep_some {r : PredictionCandidate} (cr : ℚ) (h : r.confidence = some cr)
    (a : PredictionCandidate) :
    selStep a r = if cconf a < cconf r then r else a := by
  simp [selStep, cconf, h]

theorem selStep_none {r : PredictionCandidate} (h : r.confidence = none)
    (a : PredictionCandidate) : selStep a r = a := by
  simp [selStep, h]

theorem selStep_self (a : PredictionCandidate) : selStep a a = a := by
  cases h : a.confidence with
  | none => exact selStep_none h a
  | some c =>
    rw [selStep_some c h a]
    split <;> rfl

theorem selectTopList_cons (h : PredictionCandidate) (t : List PredictionCandidate) :
    selectTopList (h :: t) = some (t.foldl selStep h) := by
  show some (List.foldl selStep h (h :: t)) = some (List.foldl selStep h t)
  rw [List.foldl_cons, selStep_self]

theorem foldl_selStep_firstMax (t : List PredictionCandidate) :
    ∀ a : PredictionCandidate, (∀ c ∈ a :: t, c.confidence.isSome = true) →
    ∃ pre post, a :: t = pre ++ (t.foldl selStep a) :: post
      ∧ (∀ c ∈ pre, cconf c < cconf (t.foldl selStep a))
      ∧ (∀ c ∈ a :: t, cconf c ≤ cconf (t.foldl selStep a)) := by
  induction t with
  | nil =>
    intro a _
    exact ⟨[], [], rfl, by simp, by simp⟩
  | cons r rest ih =>
    intro a hall
    have har : r.confidence.isSome = true := hall r (by simp)
    obtain ⟨cr, hcr⟩ := Option.isSome_iff_exists.mp har
    rw [List.foldl_cons, selStep_some cr hcr a]
    by_cases hlt : cconf a < cconf r
    · rw [if_pos hlt]
      obtain ⟨pre, post, hdec, hpre, hle⟩ := ih r (by
        intro c hc
        rcases List.mem_cons.mp hc with rfl | hc
        · exact har
        · exact hall c (by simp [hc]))
      have hrtop : cconf r ≤ cconf (rest.foldl selStep r) := hle r (by simp)
      refine ⟨a :: pre, post, ?_, ?_, ?_⟩
      · rw [List.cons_append, ← hdec]
      · intro c hc
        rcases List.mem_cons.mp hc with rfl | hc
        · exact lt_of_lt_of_le hlt hrtop
        · exact hpre c hc
      · intro c hc
        rcases List.mem_cons.mp hc with rfl | hc
        · exact le_of_lt (lt_of_lt_of_le hlt hrtop)
        · exact hle c hc
    · rw [if_neg hlt]
      obtain ⟨pre, post, hdec, hpre, hle⟩ := ih a (by
        intro c hc
        rcases List.mem_cons.mp hc with rfl | hc
        · exact hall c (by simp)
        · exact hall c (by simp [hc]))
      cases pre with
      | nil =>
        rw [List.nil_append] at hdec
        injection hdec with h1 h2
        refine ⟨[], r :: post, ?_, by simp, ?_⟩
        · rw [List.nil_append, ← h1, ← h2]
        · intro c hc
          rcases List.mem_cons.mp hc with rfl | hc
          · exact hle c (by simp)
          · rcases List.mem_cons.mp hc with rfl | hc
            · rw [← h1]
              exact le_of_not_lt hlt
            · exact hle c (by simp [hc])
      | cons p pre' =>
        rw [List.cons_append] at hdec
        injection hdec with h1 h2
        subst h1
        have hatop : cconf a < cconf (rest.foldl selStep a) := hpre a (by simp)
        refine ⟨a :: r :: pre', post, ?_, ?_, ?_⟩
        · rw [List.cons_append, List.cons_append, ← h2]
        · intro c hc
          rcases List.mem_cons.mp hc with rfl | hc
          · exact hatop
          · rcases List.mem_cons.mp hc with rfl | hc
            · exact lt_of_le_of_lt (le_of_not_lt hlt) hatop
            · exact hpre c (by simp [hc])
        · intro c hc
          rcases List.mem_cons.mp hc with rfl | hc
          · exact le_of_lt hatop
          · rcases List.mem_cons.mp hc with rfl | hc
            · exact le_of_lt (lt_of_le_of_lt (le_of_not_lt hlt) hatop)
            · exact hle c (by simp [hc])

theorem foldl_selStep_isSome_stable (t : List PredictionCandidate) :
    ∀ a : PredictionCandidate, a.confidence.isSome = true →
    (t.foldl selStep a).confidence.isSome = true := by
  induction t with
  | nil => exact fun a h => h
  | cons r rest ih =>
    intro a h
    rw [List.foldl_cons]
    cases hr : r.confidence with
    | none =>
      rw [selStep_none hr a]
      exact ih a h
    | some cr =>
      rw [selStep_some cr hr a]
      split
      · exact ih r (by rw [Option.isSome_iff_exists]; exact ⟨cr, hr⟩)
      · exact ih a h

theorem foldl_selStep_isSome_of_exists (t : List PredictionCandidate) :
    ∀ a : PredictionCandidate,
    (∀ c ∈ t, ∀ q : ℚ, c.confidence = some q → 0 ≤ q) →
    ((∃ c ∈ t, c.confidence.isSome = true) ∨ a.confidence.isSome = true) →
    (t.foldl selStep a).confidence.isSome = true := by
  induction t with
  | nil =>
    intro a _ h
    rcases h with ⟨c, hc, -⟩ | h
    · exact absurd hc (List.not_mem_nil c)
    · exact h
  | cons r rest ih =>
    intro a hrange h
    rw [List.foldl_cons]
    cases hr : r.confidence with
    | none =>
      rw [selStep_none hr a]
      apply ih a (fun c hc => hrange c (by simp [hc]))
      rcases h with ⟨c, hc, hsome⟩ | h
      · rcases List.mem_cons.mp hc with rfl | hc
        · rw [hr] at hsome
          exact absurd hsome (by simp)
        · exact Or.inl ⟨c, hc, hsome⟩
      · exact Or.inr h
    | some cr =>
      rw [selStep_some cr hr a]
      have hrsome : r.confidence.isSome = true := by
        rw [Option.isSome_iff_exists]
        exact ⟨cr, hr⟩
      split
      · exact foldl_selStep_isSome_stable rest r hrsome
      · next hnlt =>
        apply foldl_selStep_isSome_stable rest a
        cases ha : a.confidence with
        | some ca => simp [ha]
        | none =>
          exfalso
          apply hnlt
          unfold cconf
          rw [ha, hr]
          have h0 : (0 : ℚ) ≤ cr := hrange r (by simp) cr hr
          simp only [Option.getD_some, Option.getD_none]
          linarith

/-! ## Lemmas: the loader is an order-preserving filter -/

theorem loadExamples_eq_filterMap (rows : List SourceRow) :
    loadExamples rows = rows.filterMap rowToExample? := by
  induction rows with
  | nil => rfl
  | cons r t ih =>
    unfold loadExamples
    rw [List.filterMap_cons]
    cases h : rowToExample? r <;> simp [h, ih]

theorem length_filterMap_countP (rows : List SourceRow) :
    (rows.filterMap rowToExample?).length
      = rows.countP (fun r => (rowToExample? r).isSome) := by
  induction rows with
  | nil => rfl
  | cons r t ih =>
    rw [List.filterMap_cons, List.countP_cons]
    cases h : rowToExample? r <;> simp [h, ih]

/-! ## The claims -/

/-- The first row of the end-to-end scenario of C1. -/
def c1row1 : SourceRow :=
  { date := "2021-06-01", volume := "100", rate := "50000", prediction := "Fear" }

/-- The second row of the end-to-end scenario of C1 (empty date, so it is
skipped). -/
def c1row2 : SourceRow :=
  { date := "", volume := "1", rate := "1", prediction := "Greed" }

/-- C1, counterexample: on the two-row input of the claim, `loadExamples`
does return exactly one example with `volume = 100`, `rate = 50000` and
`label = "Fear"`, but its date encoding is `1247` (the actual number of days
from 2018-01-01 to 2021-06-01), not `881` as the claim states. -/
theorem loadExamples_two_rows_date_not_881 :
    loadExamples [c1row1, c1row2]
      = [{ date := 1247, volume := 100, rate := 50000, label := "Fear" }]
    ∧ loadExamples [c1row1, c1row2]
      ≠ [{ date := 881, volume := 100, rate := 50000, label := "Fear" }] := by
  constructor
  · decide
  · decide

/-- C1, amended: for the two-row input
`[{date:"2021-06-01",volume:"100",rate:"50000",prediction:"Fear"},
{date:"",volume:"1",rate:"1",prediction:"Greed"}]`, `loadExamples` returns
exactly one `TrainingExample`, and that example has `date = 1247` (days since
2018-01-01), `volume = 100`, `rate = 50000` and `label = "Fear"`. -/
theorem loadExamples_two_rows :
    (loadExamples [c1row1, c1row2]).length = 1
    ∧ loadExamples [c1row1, c1row2]
      = [{ date := 1247, volume := 100, rate := 50000, label := "Fear" }] := by
  constructor
  · decide
  · decide

/-- C9: the reference epoch maps to zero:
`convertDate "2018-01-01" = 0`. -/
theorem encodeDate_epoch_zero : convertDate "2018-01-01" = 0 := by decide

/-- C7: when the candidate list is missing (not array-shaped) or empty,
`handleResults` reports the distinct no-results outcome instead of choosing
a candidate (and, being total, it cannot throw). -/
theorem handleResults_empty_noResults :
    handleResults none = PredictionOutcome.noResults
    ∧ handleResults (some []) = PredictionOutcome.noResults
    ∧ ∀ c : PredictionCandidate, PredictionOutcome.noResults ≠ PredictionOutcome.chosen c :=
  ⟨rfl, rfl, fun _ h => PredictionOutcome.noConfusion h⟩

/-- C8: `labelToAdvice` is a total pure lookup: each of the five sentiment
labels maps to its fixed advisory tuple (in particular "Extreme Fear" maps to
the STRONG BUY advisory with a non-empty emoji and the `extreme-fear` class),
and every string outside the five-label vocabulary (including `"banana"` and
the empty string) maps to the one fixed unknown-sentiment fallback tuple. -/
theorem advise_total_lookup :
    (labelToAdvice "Extreme Fear"
        = { advice := "Buy the dip → STRONG BUY", emoji := "🔥", cssClass := "extreme-fear" }
      ∧ (labelToAdvice "Extreme Fear").emoji ≠ ""
      ∧ labelToAdvice "Fear"
        = { advice := "Good entry point → BUY", emoji := "😰", cssClass := "fear" }
      ∧ labelToAdvice "Neutral"
        = { advice := "Market stable → HOLD", emoji := "😐", cssClass := "neutral" }
      ∧ labelToAdvice "Greed"
        = { advice := "Consider taking profits", emoji := "😎", cssClass := "greed" }
      ∧ labelToAdvice "Extreme Greed"
        = { advice := "Sell high → SELL", emoji := "🤑", cssClass := "extreme-greed" }
      ∧ labelToAdvice "banana"
        = { advice := "Unknown sentiment", emoji := "❓", cssClass := "" })
    ∧ ∀ s : String, s ∉ sentimentLabels →
        labelToAdvice s = { advice := "Unknown sentiment", emoji := "❓", cssClass := "" } := by
  refine ⟨by decide, ?_⟩
  intro s hs
  simp only [sentimentLabels, List.mem_cons, List.not_mem_nil, or_false, not_or] at hs
  obtain ⟨h1, h2, h3, h4, h5⟩ := hs
  unfold labelToAdvice
  rw [if_neg h1, if_neg h2, if_neg h3, if_neg h4, if_neg h5]

/-- Witness for C8: the fallback branch of `advise_total_lookup` evaluated at
the out-of-vocabulary empty string. -/
theorem advise_total_lookup_witness :
    labelToAdvice "" = { advice := "Unknown sentiment", emoji := "❓", cssClass := "" } :=
  advise_total_lookup.2 "" (by decide)

/-- C2, counterexample: `"0099-01-01"` and `"0100-01-01"` are both valid
`YYYY-MM-DD` strings and the first is calendar-earlier, yet the encoding is
not increasing across them: JavaScript's `new Date(99, 0, 1)` remaps the year
to 1999, so `convertDate "0099-01-01" = -6940` while
`convertDate "0100-01-01" = -700535`. -/
theorem encodeDate_strictMono_counterexample :
    validDate 99 1 1 ∧ validDate 100 1 1
    ∧ fmtDate 99 1 1 = "0099-01-01" ∧ fmtDate 100 1 1 = "0100-01-01"
    ∧ (99 : Nat) < 100
    ∧ ¬ (convertDate "0099-01-01" < convertDate "0100-01-01") := by
  refine ⟨by decide, by decide, by decide, by decide, by decide, by decide⟩

/-- C2, amended: the date encoding is strictly monotonic with calendar date
on valid `YYYY-MM-DD` strings whose year component is at least 100 (for years
00–99 the JavaScript `Date` constructor remaps the year to `1900 + y`, which
breaks monotonicity across the 0099/0100 boundary): for every pair of valid
dates with years in 100..9999, calendar-earlier implies a strictly smaller
encoding. -/
theorem encodeDate_strictMono (y1 m1 d1 y2 m2 d2 : Nat)
    (hy1 : 100 ≤ y1) (hy1' : y1 ≤ 9999) (hv1 : validDate y1 m1 d1)
    (hy2 : 100 ≤ y2) (hy2' : y2 ≤ 9999) (hv2 : validDate y2 m2 d2)
    (hlt : y1 < y2 ∨ (y1 = y2 ∧ (m1 < m2 ∨ (m1 = m2 ∧ d1 < d2)))) :
    convertDate (fmtDate y1 m1 d1) < convertDate (fmtDate y2 m2 d2) := by
  rw [convertDate_fmtDate, convertDate_fmtDate]
  obtain ⟨hm1, hm2, hd1, hd2⟩ := hv1
  obtain ⟨hm1', hm2', hd1', hd2'⟩ := hv2
  have hd31 : d1 ≤ 31 := le_trans hd2 (monthLen_le_31 _ _)
  have hd31' : d2 ≤ 31 := le_trans hd2' (monthLen_le_31 _ _)
  rw [convertDateNums_valid y1 m1 d1 hy1 hy1' hm1 hm2 (by omega),
    convertDateNums_valid y2 m2 d2 hy2 hy2' hm1' hm2' (by omega)]
  have hmono := civilNat_strictMono y1 m1 d1 y2 m2 d2 (by omega)
    ⟨hm1, hm2, hd1, hd2⟩ ⟨hm1', hm2', hd1', hd2'⟩ hlt
  omega

/-- Witness for C2 (amended): two consecutive June 2021 days. -/
theorem encodeDate_strictMono_witness :
    convertDate "2021-06-01" < convertDate "2021-06-02" := by
  have h := encodeDate_strictMono 2021 6 1 2021 6 2 (by omega) (by omega) (by decide)
    (by omega) (by omega) (by decide) (Or.inr ⟨rfl, Or.inr ⟨rfl, by omega⟩⟩)
  rw [show fmtDate 2021 6 1 = "2021-06-01" from by decide,
    show fmtDate 2021 6 2 = "2021-06-02" from by decide] at h
  exact h

/-- C3: whenever the input string does not split on `"-"` into exactly three
parts, or some part is not a finite number, `convertDate` returns the
sentinel `0` (and, being total, it cannot throw). -/
theorem convertDate_sentinel_on_unparseable (s : String)
    (h : (splitDash s.data).length ≠ 3 ∨ ∃ p ∈ splitDash s.data, jsNum? p = none) :
    convertDate s = 0 := by
  unfold convertDate convertDateChars
  rcases hsp : splitDash s.data with _ | ⟨p1, _ | ⟨p2, _ | ⟨p3, _ | ⟨p4, rest⟩⟩⟩⟩
  · rfl
  · rfl
  · rfl
  · show convertParts p1 p2 p3 = 0
    rw [hsp] at h
    rcases h with h | ⟨p, hp, hnone⟩
    · simp at h
    · unfold convertParts
      rcases h1 : jsNum? p1 with _ | y <;> rcases h2 : jsNum? p2 with _ | m <;>
        rcases h3 : jsNum? p3 with _ | d <;> simp only [h1, h2, h3]
      simp only [List.mem_cons, List.not_mem_nil, or_false] at hp
      rcases hp with rfl | rfl | rfl <;> simp_all
  · rfl

/-- Witness for C3: a string with a single non-numeric segment. -/
theorem convertDate_sentinel_on_unparseable_witness : convertDate "abc" = 0 :=
  convertDate_sentinel_on_unparseable "abc" (Or.inl (by decide))

/-- C4: for every non-empty list of scored prediction candidates,
`selectTopList` returns a candidate member of the list whose confidence is
maximal, and every candidate seen before it is strictly below it (strict `>`
comparison, so the first-seen candidate wins exact ties); in particular, on
`[Fear 0.3, Greed 0.9, Neutral 0.9]` it returns the Greed entry. -/
theorem selectTop_max_first_tiebreak :
    (∀ l : List PredictionCandidate, l ≠ [] →
      (∀ c ∈ l, c.confidence.isSome = true) →
      ∃ pre top post, selectTopList l = some top ∧ l = pre ++ top :: post
        ∧ (∀ c ∈ pre, cconf c < cconf top) ∧ (∀ c ∈ l, cconf c ≤ cconf top))
    ∧ selectTopList
        [{ label := "Fear", confidence := some (3 / 10) },
          { label := "Greed", confidence := some (9 / 10) },
          { label := "Neutral", confidence := some (9 / 10) }]
      = some { label := "Greed", confidence := some (9 / 10) } := by
  constructor
  · intro l hne hall
    cases l with
    | nil => exact absurd rfl hne
    | cons h t =>
      obtain ⟨pre, post, hdec, hpre, hle⟩ := foldl_selStep_firstMax t h hall
      exact ⟨pre, t.foldl selStep h, post, selectTopList_cons h t, hdec, hpre, hle⟩
  · have s2 : selStep { label := "Fear", confidence := some ((3 : ℚ) / 10) }
        { label := "Greed", confidence := some ((9 : ℚ) / 10) }
        = { label := "Greed", confidence := some ((9 : ℚ) / 10) } := by
      rw [selStep_some ((9 : ℚ) / 10) rfl,
        if_pos (by simp only [cconf, Option.getD_some]; norm_num)]
    have s3 : selStep { label := "Greed", confidence := some ((9 : ℚ) / 10) }
        { label := "Neutral", confidence := some ((9 : ℚ) / 10) }
        = { label := "Greed", confidence := some ((9 : ℚ) / 10) } := by
      rw [selStep_some ((9 : ℚ) / 10) rfl,
        if_neg (by simp only [cconf, Option.getD_some]; norm_num)]
    show some (List.foldl selStep _ _) = _
    simp only [List.foldl_cons, List.foldl_nil, selStep_self, s2, s3]

/-- Witness for C4: the general part of `selectTop_max_first_tiebreak`
evaluated on a concrete singleton list. -/
theorem selectTop_max_first_tiebreak_witness :
    ∃ pre top post,
      selectTopList [{ label := "A", confidence := some (1 / 2) }] = some top
      ∧ [{ label := "A", confidence := some (1 / 2) }] = pre ++ top :: post
      ∧ (∀ c ∈ pre, cconf c < cconf top)
      ∧ (∀ c ∈ [{ label := "A", confidence := some (1 / 2) }], cconf c ≤ cconf top) :=
  selectTop_max_first_tiebreak.1
    [{ label := "A", confidence := some (1 / 2) }] (by decide) (by decide)

/-- C5: in the selection scan a candidate without a numeric confidence can
never beat a scored one (a scored candidate compares above the `?? -1`
default because classifier confidences lie in `[0, 1]`): whenever the list
contains at least one scored candidate, the selected result is scored, and a
confidence-less result surfaces only when every candidate is
confidence-less. -/
theorem selectTop_scored_beats_unscored (l : List PredictionCandidate)
    (hrange : ∀ c ∈ l, ∀ q : ℚ, c.confidence = some q → 0 ≤ q ∧ q ≤ 1) :
    ((∃ c ∈ l, c.confidence.isSome = true) →
      ∀ top, selectTopList l = some top → top.confidence.isSome = true)
    ∧ (∀ top, selectTopList l = some top → top.confidence = none →
        ∀ c ∈ l, c.confidence = none) := by
  have key : (∃ c ∈ l, c.confidence.isSome = true) →
      ∀ top, selectTopList l = some top → top.confidence.isSome = true := by
    intro hex top hsel
    cases l with
    | nil => exact absurd hsel (by simp [selectTopList])
    | cons h t =>
      rw [selectTopList_cons] at hsel
      injection hsel with hsel
      subst hsel
      apply foldl_selStep_isSome_of_exists t h
        (fun c hc q hq => (hrange c (by simp [hc]) q hq).1)
      rcases hex with ⟨c, hc, hsome⟩
      rcases List.mem_cons.mp hc with rfl | hc
      · exact Or.inr hsome
      · exact Or.inl ⟨c, hc, hsome⟩
  refine ⟨key, ?_⟩
  intro top hsel hnone c hc
  cases hcc : c.confidence with
  | none => rfl
  | some q =>
    exfalso
    have hsome : top.confidence.isSome = true :=
      key ⟨c, hc, by simp [hcc]⟩ top hsel
    rw [hnone] at hsome
    exact absurd hsome (by simp)

/-- Witness for C5: a confidence-less candidate listed first still loses to
the scored one. -/
theorem selectTop_scored_beats_unscored_witness :
    ∃ top,
      selectTopList [{ label := "A", confidence := none },
        { label := "B", confidence := some (1 / 2) }] = some top
      ∧ top.confidence.isSome = true := by
  have hsel : selectTopList [{ label := "A", confidence := (none : Option ℚ) },
      { label := "B", confidence := some ((1 : ℚ) / 2) }]
      = some { label := "B", confidence := some ((1 : ℚ) / 2) } := by
    have sB : selStep { label := "A", confidence := (none : Option ℚ) }
        { label := "B", confidence := some ((1 : ℚ) / 2) }
        = { label := "B", confidence := some ((1 : ℚ) / 2) } := by
      rw [selStep_some ((1 : ℚ) / 2) rfl,
        if_pos (by simp only [cconf, Option.getD_some, Option.getD_none]; norm_num)]
    show some (List.foldl selStep _ _) = _
    simp only [List.foldl_cons, List.foldl_nil, selStep_self, sB]
  have hrange : ∀ c ∈ ([{ label := "A", confidence := (none : Option ℚ) },
      { label := "B", confidence := some ((1 : ℚ) / 2) }] : List PredictionCandidate),
      ∀ q : ℚ, c.confidence = some q → 0 ≤ q ∧ q ≤ 1 := by
    intro c hc q hq
    rcases List.mem_cons.mp hc with rfl | hc
    · exact absurd hq (by simp)
    · rcases List.mem_cons.mp hc with rfl | hc
      · simp only [Option.some.injEq] at hq
        subst hq
        constructor <;> norm_num
      · exact absurd hc (List.not_mem_nil c)
  refine ⟨{ label := "B", confidence := some ((1 : ℚ) / 2) }, hsel, ?_⟩
  exact (selectTop_scored_beats_unscored _ hrange).1
    ⟨{ label := "B", confidence := some ((1 : ℚ) / 2) }, by simp, rfl⟩ _ hsel

/-- C6: the loader is an order-preserving filter that never raises: it equals
`filterMap` of the per-row validation, returns exactly as many examples as
there are well-formed rows, returns `[]` when every row is malformed, and
returns `[]` on the empty input. -/
theorem loadExamples_order_filter (rows : List SourceRow) :
    loadExamples rows = rows.filterMap rowToExample?
    ∧ (loadExamples rows).length = rows.countP (fun r => (rowToExample? r).isSome)
    ∧ ((∀ r ∈ rows, rowToExample? r = none) → loadExamples rows = [])
    ∧ loadExamples ([] : List SourceRow) = [] := by
  refine ⟨loadExamples_eq_filterMap rows, ?_, ?_, rfl⟩
  · rw [loadExamples_eq_filterMap rows]
    exact length_filterMap_countP rows
  · intro hall
    rw [loadExamples_eq_filterMap rows]
    rw [List.filterMap_eq_nil_iff]
    exact hall

/-- Witness for C6: a single malformed row (non-numeric volume) loads to the
empty example list. -/
theorem loadExamples_order_filter_witness :
    loadExamples [{ date := "x", volume := "abc", rate := "1", prediction := "y" }] = [] :=
  (loadExamples_order_filter
      [{ date := "x", volume := "abc", rate := "1", prediction := "y" }]).2.2.1
    (by decide)

/-- C10, counterexample: `"99999999999999-01-01"` splits on `"-"` into
exactly three parts that each parse to a finite number, yet `convertDate`
returns the sentinel `0` rather than a rollover day offset: the normalised
date lies about 3.65e16 days from 1970-01-01, beyond the JavaScript `Date`
range, so the date arithmetic yields NaN and the source's
`Number.isFinite` guard maps it to `0`. -/
theorem convertDate_rollover_counterexample :
    (splitDash ("99999999999999-01-01").data).length = 3
    ∧ (∀ p ∈ splitDash ("99999999999999-01-01").data, (jsNum? p).isSome = true)
    ∧ convertDate "99999999999999-01-01" = 0 :=
  ⟨by decide, by decide, by decide⟩

/-- C10, amended: for every date string `Y-M-D` with decimal-digit
components, the date encoder does not validate calendar ranges: when the
`Date` rollover normalisation of `(MakeFullYear Y, M - 1, D)` — month carry
into the year (month 0 rolling back to December), day overflow into later
months, years 0..99 remapped to `1900 + Y` — lies within the JavaScript
`Date` range, `convertDate` returns its day offset from 2018-01-01, so
non-calendar components such as month 13, day 32, month 0 or day 0 yield
valid-looking encodings rather than the unparseable sentinel; when the
normalised date falls outside the `Date` range, the `Date` arithmetic is NaN
and `convertDate` returns the sentinel `0`. -/
theorem convertDate_rollover (y m d : Nat) :
    convertDate (fmtDate y m d) =
      if (makeDay y m d - day1970).natAbs ≤ jsDateRangeDays
      then makeDay y m d - epochDayNumber
      else 0 := by
  rw [convertDate_fmtDate]
  rfl

/-- Witness for C10 (amended): `convertDate_rollover` evaluated on an
out-of-range month (2021-13-01 gives the non-zero offset of 2022-01-01), on
month 0 (2021-00-15 gives the offset of 2020-12-15), and on the huge-year
string, where the out-of-range branch yields the sentinel. -/
theorem convertDate_rollover_witness :
    convertDate "2021-13-01" = 1461
    ∧ convertDate "2021-13-01" ≠ 0
    ∧ convertDate "2021-13-01" = convertDate "2022-01-01"
    ∧ convertDate "2021-00-15" = 1079
    ∧ convertDate "99999999999999-01-01" = 0 := by
  have h13 := convertDate_rollover 2021 13 1
  have h00 := convertDate_rollover 2021 0 15
  have hbig := convertDate_rollover 99999999999999 1 1
  rw [show fmtDate 2021 13 1 = "2021-13-01" from by decide] at h13
  rw [show fmtDate 2021 0 15 = "2021-00-15" from by decide] at h00
  rw [show fmtDate 99999999999999 1 1 = "99999999999999-01-01" from by decide] at hbig
  refine ⟨?_, by decide, by decide, ?_, ?_⟩
  · rw [h13]
    decide
  · rw [h00]
    decide
  · rw [hbig]
    decide
